import Mathlib

set_option maxRecDepth 8000

/-!
Shallow embedding of the md-grid library (src/lib.rs): an N-dimensional
grid backed by a flat buffer, with row-major index translation, element
access, and iteration helpers.

Modelling conventions:
* `Vec<T>` becomes `List T`; `usize` becomes `Nat`.
* The boxed dynamic errors of the source are distinguished only by their
  message text; the two message shapes become the two constructors of
  `IndexError`, carrying the numbers interpolated into the messages.
* Raw slice indexing (`self.grid[i]`) panics in Rust when `i` is out of
  bounds; a potentially panicking operation is wrapped in `Option`, with
  `none` standing for the panic.  Hence `get`/`get_mut`/`set` return
  `Option (Except IndexError _)`: `none` is a panic, `some (.error e)` a
  recoverable failure, `some (.ok _)` success.
* `get_mut` returns `&mut T` in Rust; its observable result is modelled
  by the value read through the reference, like `get`.
-/

/-- The two error message shapes produced by `Grid::translate_index`:
dimension mismatch (got, expected) and index out of bounds (index, buffer
length). -/
inductive IndexError where
  | dimensionMismatch (got expected : Nat)
  | outOfBounds (index len : Nat)
deriving DecidableEq, Repr

/-- `Grid<T>` from src/lib.rs: flat buffer `grid`, axis count `axes`,
per-axis extents `dimensions`. -/
structure Grid (T : Type) where
  grid : List T
  axes : Nat
  dimensions : List Nat
deriving Repr

/-- The loop body of `Grid::translate_index`:
`for (i, v) in target.iter().enumerate() { index += v * dimensions.iter().skip(i+1).product() }`. -/
def stepSum (dimensions target : List Nat) : Nat :=
  target.enum.foldl (fun index iv => index + iv.2 * ((dimensions.drop (iv.1 + 1)).prod)) 0

/-- `Grid::translate_index` from src/lib.rs: reject a multi-index of the
wrong arity, compute the row-major offset, reject it when it reaches the
buffer length, otherwise return it. -/
def Grid.translate_index {T : Type} (g : Grid T) (target : List Nat) : Except IndexError Nat :=
  if target.length ≠ g.axes then
    .error (.dimensionMismatch target.length g.axes)
  else if g.grid.length ≤ stepSum g.dimensions target then
    .error (.outOfBounds (stepSum g.dimensions target) g.grid.length)
  else
    .ok (stepSum g.dimensions target)

/-- `Grid::new` from src/lib.rs: buffer of `product(dimensions)` copies of
the default value. -/
def Grid.new {T : Type} (default_value : T) (dimensions : List Nat) : Grid T :=
  let axes := dimensions.length
  let size := dimensions.prod
  { grid := List.replicate size default_value, axes := axes, dimensions := dimensions }

/-- `Grid::get` from src/lib.rs: translate, then raw-index the buffer
(`none` = panic of the raw indexing, never reached). -/
def Grid.get {T : Type} (g : Grid T) (target : List Nat) : Option (Except IndexError T) :=
  match g.translate_index target with
  | .error e => some (.error e)
  | .ok i => (g.grid[i]?).map .ok

/-- `Grid::get_mut` from src/lib.rs: same translation and raw indexing as
`get`; the mutable reference is modelled by the value it reads. -/
def Grid.get_mut {T : Type} (g : Grid T) (target : List Nat) : Option (Except IndexError T) :=
  match g.translate_index target with
  | .error e => some (.error e)
  | .ok i => (g.grid[i]?).map .ok

/-- `Grid::set` from src/lib.rs: translate, then write in place
(`self.grid[target] = val`); the updated grid is returned explicitly,
`none` models the panic of an out-of-bounds raw write. -/
def Grid.set {T : Type} (g : Grid T) (target : List Nat) (val : T) :
    Option (Except IndexError (Grid T)) :=
  match g.translate_index target with
  | .error e => some (.error e)
  | .ok i =>
    if i < g.grid.length then
      some (.ok { g with grid := g.grid.set i val })
    else
      none

/-- Modelled from the spec: `false_index` is declared in src/lib.rs but its
body is an unimplemented placeholder (`todo!()`); §4.4 of the spec fixes the
intended reverse mapping — for extents `[e0, …, ek]` the coordinate at axis
`i` is `(offset / w(i)) mod e(i)`, with `w(i)` the product of the extents
strictly after axis `i`. -/
def false_index (index : Nat) : List Nat → List Nat
  | [] => []
  | d :: ds => (index / ds.prod) % d :: false_index index ds

/-- `GridIter::position` from src/lib.rs, taken on a fresh iterator over the
grid: position of the first element satisfying the predicate, reported as a
multi-index via `false_index`. -/
def GridIter.position {T : Type} (g : Grid T) (predicate : T → Bool) : Option (List Nat) :=
  (g.grid.findIdx? predicate).map (fun i => false_index i g.dimensions)

/-- `GridIter::enumerate` from src/lib.rs, taken on a fresh iterator over
the grid: every element paired with its multi-index via `false_index`, in
buffer order. -/
def GridIter.enumerate {T : Type} (g : Grid T) : List (List Nat × T) :=
  g.grid.enum.map (fun iv => (false_index iv.1 g.dimensions, iv.2))

/-- The translation loop re-expressed as a structural recursion that pairs
the target with the remaining extents. -/
def rowVal : List Nat → List Nat → Nat
  | _, [] => 0
  | ds, t :: ts => t * ds.tail.prod + rowVal ds.tail ts

/-! ## Helper lemmas about the row-major offset computation -/

lemma tail_drop_succ (l : List Nat) (n : Nat) : (l.drop n).tail = l.drop (n + 1) := by
  rw [← List.drop_one (l.drop n), List.drop_drop]

lemma stepSum_go (ts : List Nat) : ∀ (ds : List Nat) (n c : Nat),
    (ts.enumFrom n).foldl (fun index iv => index + iv.2 * ((ds.drop (iv.1 + 1)).prod)) c
      = c + rowVal (ds.drop n) ts := by
  induction ts with
  | nil => intro ds n c; simp [rowVal]
  | cons t ts ih =>
    intro ds n c
    rw [List.enumFrom_cons, List.foldl_cons, ih ds (n + 1), rowVal, tail_drop_succ]
    dsimp only
    omega

lemma stepSum_eq_rowVal (ds ts : List Nat) : stepSum ds ts = rowVal ds ts := by
  have h := stepSum_go ts ds 0 0
  simpa [stepSum, List.enum] using h

lemma rowVal_eq_sum (ts : List Nat) : ∀ ds : List Nat,
    rowVal ds ts = ∑ i in Finset.range ts.length, ts.getD i 0 * ((ds.drop (i + 1)).prod) := by
  induction ts with
  | nil => intro ds; simp [rowVal]
  | cons t ts ih =>
    intro ds
    rw [rowVal, List.length_cons, Finset.sum_range_succ']
    have hweight : ∀ i : Nat, ds.tail.drop (i + 1) = ds.drop (i + 1 + 1) := by
      intro i
      rw [← List.drop_one ds, List.drop_drop]
      congr 1
      omega
    have hterm : ∀ i : Nat,
        (t :: ts).getD (i + 1) 0 * ((ds.drop (i + 1 + 1)).prod)
          = ts.getD i 0 * ((ds.tail.drop (i + 1)).prod) := by
      intro i
      rw [hweight i]
      rfl
    calc t * ds.tail.prod + rowVal ds.tail ts
        = (∑ i in Finset.range ts.length, ts.getD i 0 * ((ds.tail.drop (i + 1)).prod))
            + t * ds.tail.prod := by rw [ih ds.tail]; omega
      _ = (∑ i in Finset.range ts.length, (t :: ts).getD (i + 1) 0 * ((ds.drop (i + 1 + 1)).prod))
            + (t :: ts).getD 0 0 * ((ds.drop (0 + 1)).prod) := by
          rw [Finset.sum_congr rfl (fun i _ => (hterm i).symm)]
          simp [List.drop_one]

lemma rowVal_lt_prod {ts ds : List Nat} (h : List.Forall₂ (· < ·) ts ds) :
    rowVal ds ts < ds.prod := by
  induction h with
  | nil => simp [rowVal]
  | cons hab htl ih =>
    rename_i a b ts ds
    have h1 : rowVal (b :: ds) (a :: ts) = a * ds.prod + rowVal ds ts := by
      rw [rowVal]; rfl
    have h2 : (b :: ds).prod = b * ds.prod := List.prod_cons
    rw [h1, h2]
    have hb : a + 1 ≤ b := hab
    calc a * ds.prod + rowVal ds ts < a * ds.prod + ds.prod := Nat.add_lt_add_left ih _
      _ = (a + 1) * ds.prod := by ring
      _ ≤ b * ds.prod := Nat.mul_le_mul_right _ hb

lemma false_index_mul_add (ds : List Nat) : ∀ a r : Nat,
    false_index (a * ds.prod + r) ds = false_index r ds := by
  induction ds with
  | nil => intro a r; rfl
  | cons d ds ih =>
    intro a r
    have hnum : a * (List.prod (d :: ds)) + r = r + a * d * ds.prod := by
      rw [List.prod_cons]; ring
    rw [false_index, false_index, hnum]
    by_cases hp : ds.prod = 0
    · have htail : false_index (r + a * d * ds.prod) ds = false_index r ds := by
        rw [hp, Nat.mul_zero, Nat.add_zero]
      rw [htail, hp]
      simp
    · have hp' : 0 < ds.prod := Nat.pos_of_ne_zero hp
      have htail : false_index (r + a * d * ds.prod) ds = false_index r ds := by
        have h2 := ih (a * d) r
        have h3 : r + a * d * ds.prod = a * d * ds.prod + r := by ring
        rw [h3, h2]
      rw [htail, Nat.add_mul_div_right r (a * d) hp', Nat.add_mul_mod_self_right]

lemma false_index_rowVal {ts ds : List Nat} (h : List.Forall₂ (· < ·) ts ds) :
    false_index (rowVal ds ts) ds = ts := by
  induction h with
  | nil => rfl
  | cons hab htl ih =>
    rename_i a b ts ds
    have hr : rowVal ds ts < ds.prod := rowVal_lt_prod htl
    have hval : rowVal (b :: ds) (a :: ts) = a * ds.prod + rowVal ds ts := by
      rw [rowVal]; rfl
    rw [hval, false_index]
    have hhead : ((a * ds.prod + rowVal ds ts) / ds.prod) % b = a := by
      have h3 : a * ds.prod + rowVal ds ts = rowVal ds ts + a * ds.prod := by ring
      have hp : 0 < ds.prod := Nat.lt_of_le_of_lt (Nat.zero_le _) hr
      rw [h3, Nat.add_mul_div_right _ a hp, Nat.div_eq_of_lt hr, Nat.zero_add,
        Nat.mod_eq_of_lt hab]
    rw [hhead, false_index_mul_add, ih]

lemma rowVal_lt_of_lex {ts1 ts2 : List Nat} (hlex : List.Lex (· < ·) ts1 ts2) :
    ∀ {ds : List Nat}, List.Forall₂ (· < ·) ts1 ds → List.Forall₂ (· < ·) ts2 ds →
      rowVal ds ts1 < rowVal ds ts2 := by
  induction hlex with
  | nil =>
    intro ds h1 h2
    cases h1
    cases h2
  | @cons a ts1 ts2 h ih =>
    intro ds h1 h2
    cases h1 with
    | cons hab h1t =>
      cases h2 with
      | cons hcd h2t =>
        rename_i b ds
        have e1 : rowVal (b :: ds) (a :: ts1) = a * ds.prod + rowVal ds ts1 := by
          rw [rowVal]; rfl
        have e2 : rowVal (b :: ds) (a :: ts2) = a * ds.prod + rowVal ds ts2 := by
          rw [rowVal]; rfl
        rw [e1, e2]
        exact Nat.add_lt_add_left (ih h1t h2t) _
  | @rel a ts1 b ts2 hab =>
    intro ds h1 h2
    cases h1 with
    | cons hac h1t =>
      cases h2 with
      | cons hbc h2t =>
        rename_i c ds
        have e1 : rowVal (c :: ds) (a :: ts1) = a * ds.prod + rowVal ds ts1 := by
          rw [rowVal]; rfl
        have e2 : rowVal (c :: ds) (b :: ts2) = b * ds.prod + rowVal ds ts2 := by
          rw [rowVal]; rfl
        rw [e1, e2]
        have hr1 : rowVal ds ts1 < ds.prod := rowVal_lt_prod h1t
        have hb : a + 1 ≤ b := hab
        calc a * ds.prod + rowVal ds ts1 < a * ds.prod + ds.prod := Nat.add_lt_add_left hr1 _
          _ = (a + 1) * ds.prod := by ring
          _ ≤ b * ds.prod := Nat.mul_le_mul_right _ hb
          _ ≤ b * ds.prod + rowVal ds ts2 := Nat.le_add_right _ _

lemma rowVal_append_one (ts : List Nat) : ∀ (ds : List Nat) (t : Nat),
    ts.length + 1 = ds.length → rowVal ds (ts ++ [t + 1]) = rowVal ds (ts ++ [t]) + 1 := by
  induction ts with
  | nil =>
    intro ds t h
    cases ds with
    | nil => simp at h
    | cons d ds =>
      have hd : ds = [] := by
        have : ds.length = 0 := by simpa using h.symm
        exact List.eq_nil_of_length_eq_zero this
      subst hd
      simp [rowVal]
  | cons x ts ih =>
    intro ds t h
    cases ds with
    | nil => simp at h
    | cons d ds =>
      have h' : ts.length + 1 = ds.length := by simpa using h
      have e1 : rowVal (d :: ds) ((x :: ts) ++ [t + 1])
          = x * ds.prod + rowVal ds (ts ++ [t + 1]) := by
        rw [List.cons_append, rowVal]; rfl
      have e2 : rowVal (d :: ds) ((x :: ts) ++ [t])
          = x * ds.prod + rowVal ds (ts ++ [t]) := by
        rw [List.cons_append, rowVal]; rfl
      rw [e1, e2, ih ds t h']
      omega

lemma forall₂_append_last_pred (ts : List Nat) : ∀ (ds : List Nat) (t : Nat),
    List.Forall₂ (· < ·) (ts ++ [t + 1]) ds → List.Forall₂ (· < ·) (ts ++ [t]) ds := by
  induction ts with
  | nil =>
    intro ds t h
    cases h with
    | cons hab htl => exact List.Forall₂.cons (Nat.lt_of_succ_lt hab) htl
  | cons x ts ih =>
    intro ds t h
    cases h with
    | cons hab htl => exact List.Forall₂.cons hab (ih _ t htl)

/-! ## Characterizations of translate_index -/

lemma translate_index_eq {T : Type} (g : Grid T) (target : List Nat)
    (h : target.length = g.axes) :
    g.translate_index target =
      if g.grid.length ≤ stepSum g.dimensions target then
        .error (.outOfBounds (stepSum g.dimensions target) g.grid.length)
      else .ok (stepSum g.dimensions target) := by
  unfold Grid.translate_index
  simp [h]

lemma translate_index_ok_lt {T : Type} {g : Grid T} {target : List Nat} {i : Nat}
    (h : g.translate_index target = .ok i) : i < g.grid.length := by
  unfold Grid.translate_index at h
  split at h
  · cases h
  · split at h
    · cases h
    · cases h
      omega

lemma translate_index_ok_val {T : Type} {g : Grid T} {target : List Nat} {i : Nat}
    (h : g.translate_index target = .ok i) : i = stepSum g.dimensions target := by
  unfold Grid.translate_index at h
  split at h
  · cases h
  · split at h
    · cases h
    · cases h
      rfl

lemma translate_index_inbounds {T : Type} (g : Grid T) (idx : List Nat)
    (hWf : g.grid.length = g.dimensions.prod)
    (hAx : g.axes = g.dimensions.length)
    (hIn : List.Forall₂ (· < ·) idx g.dimensions) :
    g.translate_index idx = .ok (rowVal g.dimensions idx) := by
  have hlen : idx.length = g.axes := by rw [hAx, hIn.length_eq]
  have hlt : rowVal g.dimensions idx < g.dimensions.prod := rowVal_lt_prod hIn
  rw [translate_index_eq g idx hlen, stepSum_eq_rowVal]
  rw [if_neg (by omega)]

/-! ## The claims -/

/-- Claim C1: for a target of the right arity, `translate_index` computes the
offset as the sum over all axes `i` of `target[i]` times the product of the
declared extents strictly after axis `i` (row-major, last axis fastest); the
runtime buffer length enters only the final bound comparison, not the offset
itself. -/
theorem translate_index_row_major {T : Type} (g : Grid T) (target : List Nat)
    (h : target.length = g.axes) :
    g.translate_index target =
      if g.grid.length ≤ ∑ i in Finset.range target.length,
          target.getD i 0 * ((g.dimensions.drop (i + 1)).prod) then
        .error (.outOfBounds (∑ i in Finset.range target.length,
          target.getD i 0 * ((g.dimensions.drop (i + 1)).prod)) g.grid.length)
      else
        .ok (∑ i in Finset.range target.length,
          target.getD i 0 * ((g.dimensions.drop (i + 1)).prod)) := by
  have hs : stepSum g.dimensions target
      = ∑ i in Finset.range target.length,
          target.getD i 0 * ((g.dimensions.drop (i + 1)).prod) := by
    rw [stepSum_eq_rowVal, rowVal_eq_sum]
  rw [translate_index_eq g target h, hs]

/-- Witness for C1 on a 10×10 grid at [5, 9]: offset 5·10 + 9 = 59. -/
theorem translate_index_row_major_witness :
    ([5, 9] : List Nat).length = (Grid.new (0 : Nat) [10, 10]).axes ∧
    (Grid.new (0 : Nat) [10, 10]).translate_index [5, 9] = .ok 59 := by
  constructor
  · rfl
  · rw [translate_index_row_major (Grid.new (0 : Nat) [10, 10]) [5, 9] rfl]
    rfl

/-- Claim C2: for an in-bounds multi-index, the reverse mapping
`false_index` (modelled from the spec, the source body being `todo!()`)
recovers the multi-index from the offset returned by `translate_index`;
`position` and `enumerate` report multi-indices through exactly this
mapping. -/
theorem reverse_round_trip {T : Type} (g : Grid T) (idx : List Nat)
    (hWf : g.grid.length = g.dimensions.prod)
    (hAx : g.axes = g.dimensions.length)
    (hIn : List.Forall₂ (· < ·) idx g.dimensions) :
    (∃ o, g.translate_index idx = .ok o ∧ false_index o g.dimensions = idx) ∧
    (∀ p : T → Bool, GridIter.position g p
        = (g.grid.findIdx? p).map (fun i => false_index i g.dimensions)) ∧
    GridIter.enumerate g
        = g.grid.enum.map (fun iv => (false_index iv.1 g.dimensions, iv.2)) := by
  refine ⟨?_, fun p => rfl, rfl⟩
  exact ⟨rowVal g.dimensions idx, translate_index_inbounds g idx hWf hAx hIn,
    false_index_rowVal hIn⟩

/-- Witness for C2 on a 2×3 grid at [1, 2]: offset 5, recovered as [1, 2]. -/
theorem reverse_round_trip_witness :
    List.Forall₂ (· < ·) [1, 2] ([2, 3] : List Nat) ∧
    (∃ o, (Grid.new (0 : Nat) [2, 3]).translate_index [1, 2] = .ok o ∧
      false_index o (Grid.new (0 : Nat) [2, 3]).dimensions = [1, 2]) := by
  have hf : List.Forall₂ (· < ·) [1, 2] ([2, 3] : List Nat) :=
    List.Forall₂.cons (by decide) (List.Forall₂.cons (by decide) List.Forall₂.nil)
  exact ⟨hf, (reverse_round_trip (Grid.new (0 : Nat) [2, 3]) [1, 2] rfl rfl hf).1⟩

/-- Counterexample to C3: on extents [2, 3] the target [0, 5] has coordinate
5 ≥ extent 3 at axis 1, yet the aggregate bound check accepts it: the
weighted sum is 0·3 + 5·1 = 5 < 6, so `translate_index` returns ok 5 and
`get` succeeds instead of failing with `OutOfBounds`. -/
theorem coordinate_overflow_accepted :
    ([2, 3] : List Nat).getD 1 0 ≤ ([0, 5] : List Nat).getD 1 0 ∧
    (Grid.new (0 : Nat) [2, 3]).translate_index [0, 5] = .ok 5 ∧
    (Grid.new (0 : Nat) [2, 3]).get [0, 5] = some (.ok 0) := by
  refine ⟨by decide, by rfl, by rfl⟩

/-- Claim C3 as amended: only an overflowing coordinate at axis 0 (the most
significant axis) is guaranteed to push the weighted sum past the buffer
length and so be rejected with `OutOfBounds`; an overflowing coordinate at a
later axis may alias to an accepted in-range offset. -/
theorem axis0_overflow_rejected {T : Type} (g : Grid T) (d t : Nat) (ds rest : List Nat)
    (hWf : g.grid.length = g.dimensions.prod)
    (hDims : g.dimensions = d :: ds)
    (hTarget : (t :: rest).length = g.axes)
    (hGe : d ≤ t) :
    g.translate_index (t :: rest) =
      .error (.outOfBounds (stepSum g.dimensions (t :: rest)) g.grid.length) := by
  rw [translate_index_eq g _ hTarget]
  have hv : stepSum g.dimensions (t :: rest) = t * ds.prod + rowVal ds rest := by
    rw [stepSum_eq_rowVal, hDims, rowVal]
    rfl
  have hlen : g.grid.length ≤ stepSum g.dimensions (t :: rest) := by
    rw [hv, hWf, hDims, List.prod_cons]
    calc d * ds.prod ≤ t * ds.prod := Nat.mul_le_mul_right _ hGe
      _ ≤ t * ds.prod + rowVal ds rest := Nat.le_add_right _ _
  rw [if_pos hlen]

/-- Witness for the amended C3 on a 2×3 grid at [2, 0]: offset 6 ≥ length 6. -/
theorem axis0_overflow_rejected_witness :
    (Grid.new (0 : Nat) [2, 3]).grid.length = (Grid.new (0 : Nat) [2, 3]).dimensions.prod ∧
    (2 : Nat) ≤ 2 ∧
    (Grid.new (0 : Nat) [2, 3]).translate_index [2, 0] = .error (.outOfBounds 6 6) := by
  refine ⟨rfl, le_refl 2, ?_⟩
  rw [axis0_overflow_rejected (Grid.new (0 : Nat) [2, 3]) 2 2 [3] [0] rfl rfl rfl (le_refl 2)]
  rfl

/-- Claim C5: a target with the wrong number of coordinates makes `get`,
`get_mut` and `set` fail with the `DimensionMismatch` error, with no element
access or write. -/
theorem dimension_mismatch_error {T : Type} (g : Grid T) (target : List Nat) (v : T)
    (h : target.length ≠ g.axes) :
    g.get target = some (.error (.dimensionMismatch target.length g.axes)) ∧
    g.get_mut target = some (.error (.dimensionMismatch target.length g.axes)) ∧
    g.set target v = some (.error (.dimensionMismatch target.length g.axes)) := by
  have htr : g.translate_index target = .error (.dimensionMismatch target.length g.axes) := by
    unfold Grid.translate_index
    rw [if_pos h]
  exact ⟨by simp [Grid.get, htr], by simp [Grid.get_mut, htr], by simp [Grid.set, htr]⟩

/-- Witness for C5: a 1-coordinate target on a 2-axis grid. -/
theorem dimension_mismatch_error_witness :
    ([1] : List Nat).length ≠ (Grid.new (0 : Nat) [2, 3]).axes ∧
    (Grid.new (0 : Nat) [2, 3]).get [1] = some (.error (.dimensionMismatch 1 2)) := by
  exact ⟨by decide, (dimension_mismatch_error (Grid.new (0 : Nat) [2, 3]) [1] 7 (by decide)).1⟩

/-- Claim C7: `new` always succeeds and returns a grid whose buffer is
`product(extents)` copies of the default value, covering the empty extents
list (product 1) and extents containing 0 (empty buffer). -/
theorem new_grid_size_and_fill {T : Type} (v : T) (E : List Nat) :
    (Grid.new v E).grid.length = E.prod ∧
    (∀ x ∈ (Grid.new v E).grid, x = v) ∧
    (Grid.new v E).axes = E.length ∧
    (Grid.new v E).dimensions = E :=
  ⟨List.length_replicate _ _, fun _ hx => List.eq_of_mem_replicate hx, rfl, rfl⟩

/-- Claim C4: for a target of the right arity, `get`, `get_mut` and `set`
fail with `OutOfBounds` exactly when the computed row-major offset reaches
the buffer length, and translation succeeds with that offset otherwise. -/
theorem access_out_of_bounds_iff {T : Type} (g : Grid T) (target : List Nat) (v : T)
    (h : target.length = g.axes) :
    (g.get target
        = some (.error (.outOfBounds (stepSum g.dimensions target) g.grid.length))
      ↔ g.grid.length ≤ stepSum g.dimensions target) ∧
    (g.get_mut target
        = some (.error (.outOfBounds (stepSum g.dimensions target) g.grid.length))
      ↔ g.grid.length ≤ stepSum g.dimensions target) ∧
    (g.set target v
        = some (.error (.outOfBounds (stepSum g.dimensions target) g.grid.length))
      ↔ g.grid.length ≤ stepSum g.dimensions target) ∧
    (¬ g.grid.length ≤ stepSum g.dimensions target →
      g.translate_index target = .ok (stepSum g.dimensions target)) := by
  have htr := translate_index_eq g target h
  by_cases hb : g.grid.length ≤ stepSum g.dimensions target
  · rw [if_pos hb] at htr
    have hget : g.get target
        = some (.error (.outOfBounds (stepSum g.dimensions target) g.grid.length)) := by
      simp [Grid.get, htr]
    have hgm : g.get_mut target
        = some (.error (.outOfBounds (stepSum g.dimensions target) g.grid.length)) := by
      simp [Grid.get_mut, htr]
    have hset : g.set target v
        = some (.error (.outOfBounds (stepSum g.dimensions target) g.grid.length)) := by
      simp [Grid.set, htr]
    exact ⟨iff_of_true hget hb, iff_of_true hgm hb, iff_of_true hset hb,
      fun hc => absurd hb hc⟩
  · rw [if_neg hb] at htr
    have hlt : stepSum g.dimensions target < g.grid.length := Nat.lt_of_not_le hb
    have hx : g.grid[stepSum g.dimensions target]?
        = some (g.grid[stepSum g.dimensions target]) := List.getElem?_eq_getElem hlt
    have hget : g.get target = some (.ok (g.grid[stepSum g.dimensions target])) := by
      simp [Grid.get, htr, hx]
    have hgm : g.get_mut target = some (.ok (g.grid[stepSum g.dimensions target])) := by
      simp [Grid.get_mut, htr, hx]
    have hset : g.set target v
        = some (.ok { g with grid := g.grid.set (stepSum g.dimensions target) v }) := by
      simp [Grid.set, htr, hlt]
    refine ⟨⟨fun he => ?_, fun hb2 => absurd hb2 hb⟩,
      ⟨fun he => ?_, fun hb2 => absurd hb2 hb⟩,
      ⟨fun he => ?_, fun hb2 => absurd hb2 hb⟩,
      fun _ => htr⟩
    · rw [hget] at he
      simp at he
    · rw [hgm] at he
      simp at he
    · rw [hset] at he
      simp at he

/-- Witness for C4 on a 2×3 grid at [1, 2]: the offset 5 is in bounds, so
translation succeeds with it. -/
theorem access_out_of_bounds_iff_witness :
    ([1, 2] : List Nat).length = (Grid.new (0 : Nat) [2, 3]).axes ∧
    (¬ (Grid.new (0 : Nat) [2, 3]).grid.length
        ≤ stepSum (Grid.new (0 : Nat) [2, 3]).dimensions [1, 2] →
      (Grid.new (0 : Nat) [2, 3]).translate_index [1, 2]
        = .ok (stepSum (Grid.new (0 : Nat) [2, 3]).dimensions [1, 2])) :=
  ⟨rfl, (access_out_of_bounds_iff (Grid.new (0 : Nat) [2, 3]) [1, 2] 7 rfl).2.2.2⟩

/-- Claim C6: on in-bounds multi-indices `translate_index` is deterministic
and strictly monotone for the row-major lexicographic order, and bumping the
last coordinate by one (while in bounds) bumps the offset by exactly one. -/
theorem translate_index_strict_mono {T : Type} (g : Grid T)
    (hWf : g.grid.length = g.dimensions.prod)
    (hAx : g.axes = g.dimensions.length) :
    (∀ idx, g.translate_index idx = g.translate_index idx) ∧
    (∀ idx1 idx2, List.Forall₂ (· < ·) idx1 g.dimensions →
      List.Forall₂ (· < ·) idx2 g.dimensions → List.Lex (· < ·) idx1 idx2 →
      ∃ o1 o2, g.translate_index idx1 = .ok o1 ∧ g.translate_index idx2 = .ok o2 ∧ o1 < o2) ∧
    (∀ pre t, List.Forall₂ (· < ·) (pre ++ [t + 1]) g.dimensions →
      ∃ o, g.translate_index (pre ++ [t]) = .ok o ∧
        g.translate_index (pre ++ [t + 1]) = .ok (o + 1)) := by
  refine ⟨fun _ => rfl, fun idx1 idx2 h1 h2 hlex => ?_, fun pre t h1 => ?_⟩
  · exact ⟨rowVal g.dimensions idx1, rowVal g.dimensions idx2,
      translate_index_inbounds g idx1 hWf hAx h1,
      translate_index_inbounds g idx2 hWf hAx h2,
      rowVal_lt_of_lex hlex h1 h2⟩
  · have h0 : List.Forall₂ (· < ·) (pre ++ [t]) g.dimensions :=
      forall₂_append_last_pred pre g.dimensions t h1
    have hlen : pre.length + 1 = g.dimensions.length := by
      have := h1.length_eq
      simpa using this
    have hsucc := rowVal_append_one pre g.dimensions t hlen
    exact ⟨rowVal g.dimensions (pre ++ [t]),
      translate_index_inbounds g (pre ++ [t]) hWf hAx h0,
      by rw [translate_index_inbounds g (pre ++ [t + 1]) hWf hAx h1, hsucc]⟩

/-- Witness for C6 on a 2×3 grid: [0, 2] precedes [1, 0] lexicographically,
and their offsets 2 and 3 respect the order. -/
theorem translate_index_strict_mono_witness :
    (Grid.new (0 : Nat) [2, 3]).grid.length = (Grid.new (0 : Nat) [2, 3]).dimensions.prod ∧
    (∃ o1 o2, (Grid.new (0 : Nat) [2, 3]).translate_index [0, 2] = .ok o1 ∧
      (Grid.new (0 : Nat) [2, 3]).translate_index [1, 0] = .ok o2 ∧ o1 < o2) := by
  have hf1 : List.Forall₂ (· < ·) [0, 2] ([2, 3] : List Nat) :=
    List.Forall₂.cons (by decide) (List.Forall₂.cons (by decide) List.Forall₂.nil)
  have hf2 : List.Forall₂ (· < ·) [1, 0] ([2, 3] : List Nat) :=
    List.Forall₂.cons (by decide) (List.Forall₂.cons (by decide) List.Forall₂.nil)
  have hlex : List.Lex (· < ·) [0, 2] ([1, 0] : List Nat) := List.Lex.rel (by decide)
  exact ⟨rfl,
    (translate_index_strict_mono (Grid.new (0 : Nat) [2, 3]) rfl rfl).2.1
      [0, 2] [1, 0] hf1 hf2 hlex⟩

/-- Claim C8: a successful `set` writes the value into exactly the addressed
buffer cell: a subsequent `get` at the same target reads it back, the shape
is unchanged, and every other cell keeps its previous contents. -/
theorem set_then_get {T : Type} (g : Grid T) (target : List Nat) (v : T)
    (hLen : target.length = g.axes)
    (hOff : stepSum g.dimensions target < g.grid.length) :
    ∃ g2, g.set target v = some (.ok g2) ∧
      g2.get target = some (.ok v) ∧
      g2.dimensions = g.dimensions ∧
      g2.axes = g.axes ∧
      g2.grid.length = g.grid.length ∧
      (∀ j, j ≠ stepSum g.dimensions target → g2.grid[j]? = g.grid[j]?) := by
  have htr : g.translate_index target = .ok (stepSum g.dimensions target) := by
    rw [translate_index_eq g target hLen, if_neg (Nat.not_le_of_lt hOff)]
  refine ⟨{ g with grid := g.grid.set (stepSum g.dimensions target) v },
    ?_, ?_, rfl, rfl, by simp, ?_⟩
  · simp [Grid.set, htr, hOff]
  · have hlen2 : (g.grid.set (stepSum g.dimensions target) v).length = g.grid.length := by
      simp
    have htr2 : Grid.translate_index
        { g with grid := g.grid.set (stepSum g.dimensions target) v } target
          = .ok (stepSum g.dimensions target) := by
      have h2 := translate_index_eq
        { g with grid := g.grid.set (stepSum g.dimensions target) v } target hLen
      rw [h2]
      dsimp only
      rw [hlen2, if_neg (Nat.not_le_of_lt hOff)]
    simp [Grid.get, htr2, List.getElem?_set_self, hOff]
  · intro j hj
    exact List.getElem?_set_ne (fun he => hj he.symm)

/-- Witness for C8 on a 2×3 grid at [1, 2] with value 9. -/
theorem set_then_get_witness :
    ([1, 2] : List Nat).length = (Grid.new (0 : Nat) [2, 3]).axes ∧
    stepSum (Grid.new (0 : Nat) [2, 3]).dimensions [1, 2]
      < (Grid.new (0 : Nat) [2, 3]).grid.length ∧
    (∃ g2, (Grid.new (0 : Nat) [2, 3]).set [1, 2] 9 = some (.ok g2) ∧
      g2.get [1, 2] = some (.ok 9) ∧
      g2.dimensions = (Grid.new (0 : Nat) [2, 3]).dimensions ∧
      g2.axes = (Grid.new (0 : Nat) [2, 3]).axes ∧
      g2.grid.length = (Grid.new (0 : Nat) [2, 3]).grid.length ∧
      (∀ j, j ≠ stepSum (Grid.new (0 : Nat) [2, 3]).dimensions [1, 2] →
        g2.grid[j]? = (Grid.new (0 : Nat) [2, 3]).grid[j]?)) :=
  ⟨rfl, by decide, set_then_get (Grid.new (0 : Nat) [2, 3]) [1, 2] 9 rfl (by decide)⟩

/-- Claim C9: `get`, `get_mut` and `set` never panic: every failure is a
recoverable error value, and a successful translation returns an offset
strictly below the buffer length, so the raw buffer access is in bounds. -/
theorem no_panic_access {T : Type} (g : Grid T) (target : List Nat) (v : T) :
    g.get target ≠ none ∧ g.get_mut target ≠ none ∧ g.set target v ≠ none ∧
    (∀ i, g.translate_index target = .ok i → i < g.grid.length) := by
  refine ⟨?_, ?_, ?_, fun i hi => translate_index_ok_lt hi⟩
  · cases htr : g.translate_index target with
    | error e => simp [Grid.get, htr]
    | ok i =>
      have hlt := translate_index_ok_lt htr
      have hx : g.grid[i]? = some (g.grid[i]) := List.getElem?_eq_getElem hlt
      simp [Grid.get, htr, hx]
  · cases htr : g.translate_index target with
    | error e => simp [Grid.get_mut, htr]
    | ok i =>
      have hlt := translate_index_ok_lt htr
      have hx : g.grid[i]? = some (g.grid[i]) := List.getElem?_eq_getElem hlt
      simp [Grid.get_mut, htr, hx]
  · cases htr : g.translate_index target with
    | error e => simp [Grid.set, htr]
    | ok i =>
      have hlt := translate_index_ok_lt htr
      simp [Grid.set, htr, hlt]

/-- Claim C10: on a grid built with some extent 0 the buffer is empty, so
every access with the right arity fails with `OutOfBounds`: no access on
such a grid ever succeeds. -/
theorem zero_extent_always_out_of_bounds {T : Type} (v w : T) (E target : List Nat)
    (h0 : 0 ∈ E) (hLen : target.length = E.length) :
    (Grid.new v E).translate_index target = .error (.outOfBounds (stepSum E target) 0) ∧
    (Grid.new v E).get target = some (.error (.outOfBounds (stepSum E target) 0)) ∧
    (Grid.new v E).get_mut target = some (.error (.outOfBounds (stepSum E target) 0)) ∧
    (Grid.new v E).set target w = some (.error (.outOfBounds (stepSum E target) 0)) := by
  have hprod : E.prod = 0 := List.prod_eq_zero h0
  have hlen0 : (Grid.new v E).grid.length = 0 := by
    simp [Grid.new, hprod]
  have htr : (Grid.new v E).translate_index target
      = .error (.outOfBounds (stepSum E target) 0) := by
    rw [translate_index_eq (Grid.new v E) target hLen]
    rw [hlen0]
    rw [if_pos (Nat.zero_le _)]
    rfl
  exact ⟨htr, by simp [Grid.get, htr], by simp [Grid.get_mut, htr], by simp [Grid.set, htr]⟩

/-- Witness for C10 on extents [2, 0] at target [0, 0]. -/
theorem zero_extent_always_out_of_bounds_witness :
    (0 : Nat) ∈ ([2, 0] : List Nat) ∧
    ([0, 0] : List Nat).length = ([2, 0] : List Nat).length ∧
    (Grid.new (0 : Nat) [2, 0]).translate_index [0, 0]
      = .error (.outOfBounds (stepSum [2, 0] [0, 0]) 0) :=
  ⟨by decide, rfl,
    (zero_extent_always_out_of_bounds (0 : Nat) 0 [2, 0] [0, 0] (by decide) rfl).1⟩

-- Concrete checks mirroring the source's own unit tests.
example : (Grid.new (0 : Nat) [10, 10]).translate_index [5, 9] = .ok 59 := by rfl
example : (Grid.new (0 : Nat) [10, 10, 10]).translate_index [3, 7, 6] = .ok 376 := by rfl
example : (Grid.new (0 : Nat) [2, 3]).translate_index [0, 5] = .ok 5 := by rfl
example : false_index 376 [10, 10, 10] = [3, 7, 6] := by decide
